import Mathlib

/-!
Shallow embedding of the import-formatting core of the `goimportfmt`
repository, together with proofs checking the natural-language
specification against it.

Namespace `goimportfmt` embeds the library (`goimportfmt.go`);
namespace `cmdmain` embeds the command pipeline
(`cmd/goimportfmt/main.go`).  Go strings are modelled as Lean `String`;
the byte-wise operations Go performs on them (prefix test, substring
search, `<` comparison) are modelled on `String.data : List Char`,
which is ordered exactly as the UTF-8 bytes are (UTF-8 byte order
coincides with code-point order).  Byte streams handled by the splice
writer are modelled as `List Char`.  The Go standard library
(`strconv.Unquote`, `go/parser`, `go/format`) is external to the
repository and is treated as a parameter of the embedded functions.
-/

namespace goimportfmt

/-- The `Import` struct of `goimportfmt.go`: one logical import
statement (alias name, unquoted path, leading doc-comment lines,
trailing same-line comment). -/
structure Import where
  Name : String
  Path : String
  Docs : List String
  Comment : String
deriving DecidableEq, Repr

/-- The `Context` struct passed to a `FormatFunc`. -/
structure Context where
  ModulePath : String
deriving DecidableEq, Repr

/-- `strings.HasPrefix(s, pre)`. -/
def hasPrefixGo (s pre : String) : Bool := List.isPrefixOf pre.data s.data

/-- `strings.Contains(s, ".")`, specialised to a one-character needle. -/
def containsChar (s : String) (c : Char) : Bool := s.data.contains c

/-- The `groupOfImport` closure inside `defaultFormatFunc`
(`goimportfmt.go` lines 148-156): the module-prefix test runs first,
then the dot test. -/
def groupOfImport (ctx : Context) (pkg : String) : Int :=
  if ctx.ModulePath ≠ "" ∧ hasPrefixGo pkg ctx.ModulePath = true then 2
  else if containsChar pkg '.' = true then 1
  else 0

/-- The comparator used by `sort.Slice` in `defaultFormatFunc`
(lines 164-166): Go's byte-wise `is[i].Path < is[j].Path` reads only
the `Path` field; a sort with that comparator guarantees exactly that
adjacent paths are `≤`. -/
def pathLe (a b : Import) : Prop := a.Path.data ≤ b.Path.data

instance : DecidableRel pathLe := fun a b =>
  inferInstanceAs (Decidable (a.Path.data ≤ b.Path.data))

instance : IsTotal Import pathLe := ⟨fun a b => le_total a.Path.data b.Path.data⟩

instance : IsTrans Import pathLe := ⟨fun _ _ _ h h' => le_trans h h'⟩

/-- `GroupedImports` (`map[int][]*Import`), modelled as an association
list in first-insertion order; `WriteTo` later sorts the keys, so the
map's arbitrary iteration order is irrelevant. -/
abbrev GroupedImports := List (Int × List Import)

/-- `GroupedImports.Add`: append `i` to the slice stored under key `n`
(creating the entry when absent), exactly as `gp[n] = append(gp[n], i)`
does on a Go map. -/
def GroupedImports.add (gp : GroupedImports) (n : Int) (i : Import) : GroupedImports :=
  match gp with
  | [] => [(n, [i])]
  | (k, l) :: rest =>
    if k = n then (k, l ++ [i]) :: rest
    else (k, l) :: GroupedImports.add rest n i

/-- `defaultFormatFunc` (`goimportfmt.go` lines 147-170): bucket
every import by `groupOfImport` of its path, then sort each bucket by
path. -/
def defaultFormatFunc (ctx : Context) (is : List Import) : GroupedImports :=
  let gi := is.foldl (fun gp i => GroupedImports.add gp (groupOfImport ctx i.Path) i) []
  gi.map (fun p => (p.1, List.insertionSort pathLe p.2))

/-- The text `GroupedImports.WriteTo` emits for one import
(`goimportfmt.go` lines 328-370): each doc line as `\t// <doc>\n`, then
a tab, the alias plus a space when present, the quoted path, the
trailing ` // <comment>` when present, and a newline.  The destination
is modelled as error-free, so the byte count returned by the Go code is
the length of this text. -/
def renderImport (i : Import) : String :=
  String.join (i.Docs.map (fun d => "\t// " ++ d ++ "\n")) ++
  "\t" ++
  (if i.Name ≠ "" then i.Name ++ " " else "") ++
  "\"" ++ i.Path ++ "\"" ++
  (if i.Comment ≠ "" then " // " ++ i.Comment else "") ++
  "\n"

/-- The key set of the map (`for g := range gp`). -/
def GroupedImports.keys (gp : GroupedImports) : List Int := gp.map Prod.fst

/-- Map indexing `gp[g]` (empty slice when the key is absent). -/
def GroupedImports.group (gp : GroupedImports) (g : Int) : List Import :=
  match gp.find? (fun p => p.1 == g) with
  | some p => p.2
  | none => []

/-- The text the inner loop of `WriteTo` emits for the members of one
group (`for _, i := range is`). -/
def groupText (gp : GroupedImports) (g : Int) : String :=
  String.join ((GroupedImports.group gp g).map renderImport)

/-- The group loop of `WriteTo` (lines 317-371): a blank line before
every group except the first (`if i > 0`), then the group's imports. -/
def writeGroupsFrom (gp : GroupedImports) : Bool → List Int → String
  | _, [] => ""
  | first, g :: gs =>
    (if first then "" else "\n") ++ groupText gp g ++ writeGroupsFrom gp false gs

/-- `GroupedImports.WriteTo` (lines 297-380): nothing for an empty map,
otherwise `import (`, the groups in ascending key order (`sort.Ints`),
and the closing `)`. -/
def GroupedImports.writeTo (gp : GroupedImports) : String :=
  if gp.isEmpty then "" else
  "import (\n" ++
  writeGroupsFrom gp true (List.insertionSort (fun a b : Int => a ≤ b) (GroupedImports.keys gp)) ++
  ")\n"

/-- Join a list of strings with a separator between consecutive
elements (and nothing at either end). -/
def sepJoin (sep : String) : List String → String
  | [] => ""
  | [s] => s
  | s :: s' :: rest => s ++ sep ++ sepJoin sep (s' :: rest)

/-- Follows the spec's words (§4.3), for comparison with
`GroupedImports.writeTo`: the opening marker, then the text of each
present group in ascending group-id order with the groups separated by
one extra `\n` (a blank line, since every group's text ends in `\n`),
then the closing marker. -/
def specBlockText (gp : GroupedImports) : String :=
  "import (\n" ++
  sepJoin "\n"
    ((List.insertionSort (fun a b : Int => a ≤ b) (GroupedImports.keys gp)).map (groupText gp)) ++
  ")\n"

/-- `bytes.Count(bs, []byte{'\n'})`. -/
def countNL (bs : List Char) : Nat := bs.count '\n'

/-- The `importInsertWriter` struct (`goimportfmt.go` lines 59-65).
The destination writer `w` is modelled outside the state: each write
step returns the bytes it hands to the destination.  `imports` holds
the text `GroupedImports.WriteTo` would emit (the `WriteTo` call at
line 101 is the only use of the field, so the state can carry the text
directly). -/
structure ImportInsertWriter where
  lineInsert : Nat
  count : Nat
  buf : List Char
  imports : List Char
deriving DecidableEq, Repr

/-- The index-scanning loop of `importInsertWriter.Write` (lines
83-92): walk the buffer; at each `'\n'` increment the local counter and
stop just past it once `count+1 >= lineInsert`; return the index after
the loop (the buffer's length when the loop never breaks).  `cnt` is
the loop's counter before examining the current character. -/
def scanIdx (lineInsert : Nat) : List Char → Nat → Nat
  | [], _ => 0
  | c :: rest, cnt =>
    if c = '\n' then
      if lineInsert ≤ cnt + 2 then 1
      else 1 + scanIdx lineInsert rest (cnt + 1)
    else 1 + scanIdx lineInsert rest cnt

/-- One call of `importInsertWriter.Write` (lines 67-122): returns the
updated writer state, the bytes passed to the destination writer by
this call, and the returned length.  The destination is modelled as
error-free, so the error paths (which only propagate destination
errors) do not arise. -/
def writeStep (w : ImportInsertWriter) (bs : List Char) : ImportInsertWriter × List Char × Nat :=
  if w.lineInsert ≤ w.count then
    (w, bs, bs.length)
  else
    let count' := w.count + countNL bs
    let buf' := w.buf ++ bs
    if count' < w.lineInsert then
      ({ w with count := count', buf := buf' }, [], bs.length)
    else
      let idx := scanIdx w.lineInsert buf' 0
      let emitted := buf'.take idx ++ w.imports ++ '\n' :: buf'.drop idx
      ({ w with count := count', buf := [] }, emitted, emitted.length)

/-- A sequence of `Write` calls: the final state and the concatenation
of everything handed to the destination writer. -/
def runWrites (w : ImportInsertWriter) : List (List Char) → ImportInsertWriter × List Char
  | [] => (w, [])
  | bs :: rest =>
    let r := writeStep w bs
    let r' := runWrites r.1 rest
    (r'.1, r.2.1 ++ r'.2)

/-- The stream the splice writer is specified to produce: the input
with the rendered block plus one newline inserted at the position the
scanning loop computes (the start of line `lineInsert`). -/
def splicedOutput (lineInsert : Nat) (imp : List Char) (s : List Char) : List Char :=
  s.take (scanIdx lineInsert s 0) ++ imp ++ '\n' :: s.drop (scanIdx lineInsert s 0)

/-- A comment group node (`*ast.CommentGroup`): the raw `c.Text` of its
comments, plus an identifier standing for the node's pointer identity
(`removeImports` deletes comment groups from `f.Comments` by pointer
comparison). -/
structure CommentGroup where
  id : Nat
  texts : List String
deriving DecidableEq, Repr

/-- An `*ast.ImportSpec`: optional alias, the raw quoted path literal
(`is.Path.Value`), optional doc comment, optional trailing comment. -/
structure ImportSpec where
  name : Option String
  pathValue : String
  doc : Option CommentGroup
  comment : Option CommentGroup
deriving DecidableEq, Repr

/-- An import `*ast.GenDecl`: optional doc comment, source line of the
declaration (`fs.Position(gd.Pos()).Line`), and its specs. -/
structure ImportDecl where
  doc : Option CommentGroup
  line : Nat
  specs : List ImportSpec
deriving DecidableEq, Repr

/-- A top-level declaration: an import declaration or anything else
(`loadImports` and `removeImports` skip every non-import declaration
untouched). -/
inductive Decl where
  | imp : ImportDecl → Decl
  | other : Nat → Decl
deriving DecidableEq, Repr

/-- Whether a declaration is an import declaration
(`gd, ok := d.(*ast.GenDecl); gd.Tok == token.IMPORT`). -/
def Decl.isImport : Decl → Bool
  | .imp _ => true
  | .other _ => false

/-- A parsed `*ast.File`: top-level declarations and the file's
standalone comment list `f.Comments`. -/
structure File where
  decls : List Decl
  comments : List CommentGroup
deriving DecidableEq, Repr

/-- Strip leading and trailing whitespace from a character list
(`strings.TrimSpace` on the string's characters). -/
def trimSpaceList (l : List Char) : List Char :=
  ((l.dropWhile Char.isWhitespace).reverse.dropWhile Char.isWhitespace).reverse

/-- `strings.TrimSpace(strings.TrimPrefix(text, "//"))` as applied to
every comment text in `loadImports`. -/
def commentText (s : String) : String :=
  ⟨trimSpaceList (if List.isPrefixOf "//".data s.data then s.data.drop 2 else s.data)⟩

/-- The trimmed texts of an optional comment group. -/
def groupTexts (cg : Option CommentGroup) : List String :=
  match cg with
  | none => []
  | some c => c.texts.map commentText

/-- Build the `Import` record for one spec (`goimportfmt.go` lines
253-277): unquote the path literal, falling back to the raw literal
when unquoting fails; docs are the inherited declaration docs followed
by the spec's own doc lines; the trailing comment texts are
concatenated with no separator; the alias defaults to the empty
string.  `unquote` models `strconv.Unquote` (Go standard library,
external to the repository). -/
def mkImport (unquote : String → Option String) (docs : List String) (s : ImportSpec) : Import :=
  { Path := (unquote s.pathValue).getD s.pathValue
    Docs := docs ++ groupTexts s.doc
    Comment := String.join (groupTexts s.comment)
    Name := s.name.getD "" }

/-- The spec loop of `loadImports` (lines 247-278): the `isNotFirst`
flag resets the inherited docs to nil for every spec after the first. -/
def loadSpecs (unquote : String → Option String) (docs : List String) :
    List ImportSpec → List Import
  | [] => []
  | s :: rest => mkImport unquote docs s :: loadSpecs unquote [] rest

/-- Records extracted from one import declaration: the declaration's
doc lines are inherited by the first spec only. -/
def loadDecl (unquote : String → Option String) (d : ImportDecl) : List Import :=
  loadSpecs unquote (groupTexts d.doc) d.specs

/-- One iteration of the declaration loop of `loadImports`: non-import
declarations are skipped (`continue`). -/
def loadStep (unquote : String → Option String) (acc : List Import) (d : Decl) : List Import :=
  match d with
  | .imp g => acc ++ loadDecl unquote g
  | .other _ => acc

/-- `loadImports` (lines 229-282): collect the records of every import
declaration in order.  The Go signature returns an error, but no path
of the function produces one. -/
def loadImports (unquote : String → Option String) (f : File) : Except String (List Import) :=
  Except.ok (f.decls.foldl (loadStep unquote) [])

/-- The comment groups physically attached to an import declaration
(lines 405-418): the declaration doc, then each spec's doc and trailing
comment. -/
def declComments (g : ImportDecl) : List CommentGroup :=
  g.doc.toList ++
  g.specs.foldl (fun acc s => acc ++ s.doc.toList ++ s.comment.toList) []

/-- One iteration of the first-import-line scan of `removeImports`
(lines 401-403): `firstImportLine` is set only while still 0. -/
def lineStep (fl : Nat) (d : Decl) : Nat :=
  match d with
  | .imp g => if fl = 0 then g.line else fl
  | .other _ => fl

/-- One iteration of the comment collection of `removeImports` (lines
405-418). -/
def commentStep (acc : List CommentGroup) (d : Decl) : List CommentGroup :=
  match d with
  | .imp g => acc ++ declComments g
  | .other _ => acc

/-- `removeImports` (lines 388-435): record the line of the first
of the import declarations (0 when there is none), delete every
one of them from the tree, and delete their comment groups from the
file's comment list (matching by node identity). -/
def removeImports (f : File) : Nat × File :=
  let fl := f.decls.foldl lineStep 0
  let removed := f.decls.foldl commentStep []
  (fl,
   { decls := f.decls.filter (fun d => !d.isImport)
     comments := f.comments.filter (fun c => !(removed.any (fun c' => c'.id == c.id))) })

/-- `Process` (lines 21-57) under the default configuration: `parsed`
is the result of `parser.ParseFile` (`none` models a parse failure) and
`render` models `format.Node` printing the mutated tree as a sequence
of chunks written to the splice writer — both are Go standard library
collaborators external to the repository.  On parse failure the
function returns an error before anything is written; otherwise the
output is what the splice writer passes through to `dst`. -/
def Process (unquote : String → Option String) (render : File → List (List Char))
    (modulePath : String) (parsed : Option File) : Except String (List Char) :=
  match parsed with
  | none => Except.error "failed to parse file"
  | some f =>
    match loadImports unquote f with
    | Except.error e => Except.error e
    | Except.ok is =>
      let r := removeImports f
      let gi := defaultFormatFunc { ModulePath := modulePath } is
      Except.ok
        (runWrites
          { lineInsert := r.1, count := 0, buf := [],
            imports := (GroupedImports.writeTo gi).data }
          (render r.2)).2

end goimportfmt

namespace cmdmain

/-- The `Import` struct local to `createApp` in
`cmd/goimportfmt/main.go` (lines 221-228). -/
structure Import where
  Name : String
  Path : String
  Docs : List String
  Comment : String
  LineFrom : Nat
  LineTo : Nat
deriving DecidableEq, Repr

/-- `groupOfImport` of `cmd/goimportfmt/main.go` (lines 473-481): the
dot test runs first, then the module-prefix test. -/
def groupOfImport (pkg : String) (mod : String) : Int :=
  if goimportfmt.containsChar pkg '.' = false then 0
  else if mod ≠ "" ∧ goimportfmt.hasPrefixGo pkg mod = true then 2
  else 1

/-- The comparator of the `sort.Slice` call at `main.go` lines 369-371:
byte-wise comparison of the `Path` fields. -/
def pathLe (a b : Import) : Prop := a.Path.data ≤ b.Path.data

instance : DecidableRel pathLe := fun a b =>
  inferInstanceAs (Decidable (a.Path.data ≤ b.Path.data))

instance : IsTotal Import pathLe := ⟨fun a b => le_total a.Path.data b.Path.data⟩

instance : IsTrans Import pathLe := ⟨fun _ _ _ h h' => le_trans h h'⟩

/-- The whole import list sorted by path (`main.go` lines 369-371);
this happens before the documented/plain split. -/
def sortImports (imports : List Import) : List Import :=
  List.insertionSort pathLe imports

/-- `printImports` (`main.go` lines 401-413): each import's raw doc
lines (the stored `c.Text`, comment markers included in this pipeline),
then `name " path"` via `%s "%s"`, then the raw trailing comment or a
bare newline. -/
def printImports (is : List Import) : String :=
  String.join (is.map (fun i =>
    String.join (i.Docs.map (fun d => d ++ "\n")) ++
    i.Name ++ " \"" ++ i.Path ++ "\"" ++
    (if i.Comment ≠ "" then " " ++ i.Comment ++ "\n" else "\n")))

/-- The `groups` map (`map[int][]*Import`), association list in
first-insertion order, as for the library's `GroupedImports`. -/
abbrev Groups := List (Int × List Import)

/-- `groups[g] = append(groups[g], i)`. -/
def addGroup (m : Groups) (g : Int) (i : Import) : Groups :=
  match m with
  | [] => [(g, [i])]
  | (k, l) :: rest =>
    if k = g then (k, l ++ [i]) :: rest
    else (k, l) :: addGroup rest g i

/-- The documented imports (`main.go` lines 374-382): the members of
the sorted list whose `Docs` is non-empty, in sorted order. -/
def docImportsOf (imports : List Import) : List Import :=
  (sortImports imports).filter (fun i => !i.Docs.isEmpty)

/-- The `groups` map built from the non-documented imports only
(`main.go` lines 384-388). -/
def groupsOf (imports : List Import) (mod : String) : Groups :=
  ((sortImports imports).filter (fun i => i.Docs.isEmpty)).foldl
    (fun m i => addGroup m (groupOfImport i.Path mod) i) []

/-- Map indexing `groups[g]`. -/
def lookupGroup (m : Groups) (g : Int) : List Import :=
  match m.find? (fun p => p.1 == g) with
  | some p => p.2
  | none => []

/-- `blocks` (`main.go` lines 389-399): the group slices in ascending
key order. -/
def blocksOf (imports : List Import) (mod : String) : List (List Import) :=
  (List.insertionSort (fun a b : Int => a ≤ b) ((groupsOf imports mod).map Prod.fst)).map
    (fun g => lookupGroup (groupsOf imports mod) g)

/-- The import-block text the sort task emits after the `import (`
line (`main.go` lines 415-422): the documented imports first, a blank
line, then each block followed by a blank line, then `)`. -/
def renderGroupedPart (imports : List Import) (mod : String) : String :=
  printImports (docImportsOf imports) ++ "\n" ++
  String.join ((blocksOf imports mod).map (fun b => printImports b ++ "\n")) ++
  ")\n"

end cmdmain

/-- Claim C1, amended.  The three rules of the claim contradict each
other when the path has no dot but is prefix-matched by a non-empty
module path, and neither classifier follows the claim there.  Amended:
the tests apply in implementation order.  The library classifier
(`defaultFormatFunc`) checks the module prefix first: group 2 when `m`
is non-empty and a prefix of `p`; otherwise group 1 when `p` contains
a dot; otherwise group 0.  The command classifier checks the dot
first: group 0 when `p` has no dot; otherwise group 2 when `m` is
non-empty and a prefix of `p`; otherwise group 1.  The claim's three
example paths classify to 0, 1, 2 under both. -/
theorem C1_classification (p m : String) :
    (m ≠ "" ∧ goimportfmt.hasPrefixGo p m = true → goimportfmt.groupOfImport ⟨m⟩ p = 2) ∧
    (¬(m ≠ "" ∧ goimportfmt.hasPrefixGo p m = true) → goimportfmt.containsChar p '.' = true →
      goimportfmt.groupOfImport ⟨m⟩ p = 1) ∧
    (¬(m ≠ "" ∧ goimportfmt.hasPrefixGo p m = true) → goimportfmt.containsChar p '.' = false →
      goimportfmt.groupOfImport ⟨m⟩ p = 0) ∧
    (goimportfmt.containsChar p '.' = false → cmdmain.groupOfImport p m = 0) ∧
    (goimportfmt.containsChar p '.' = true → m ≠ "" ∧ goimportfmt.hasPrefixGo p m = true →
      cmdmain.groupOfImport p m = 2) ∧
    (goimportfmt.containsChar p '.' = true → ¬(m ≠ "" ∧ goimportfmt.hasPrefixGo p m = true) →
      cmdmain.groupOfImport p m = 1) ∧
    goimportfmt.groupOfImport ⟨"mymodule"⟩ "fmt" = 0 ∧
    goimportfmt.groupOfImport ⟨"mymodule"⟩ "pkg.example.com/x" = 1 ∧
    goimportfmt.groupOfImport ⟨"mymodule"⟩ "mymodule/sub" = 2 ∧
    cmdmain.groupOfImport "fmt" "mymodule" = 0 ∧
    cmdmain.groupOfImport "pkg.example.com/x" "mymodule" = 1 ∧
    cmdmain.groupOfImport "mymodule/sub" "mymodule" = 0 := by
  refine ⟨?_, ?_, ?_, ?_, ?_, ?_, by decide, by decide, by decide, by decide, by decide, by decide⟩
  · intro h
    simp only [goimportfmt.groupOfImport, if_pos h]
  · intro h h'
    simp only [goimportfmt.groupOfImport, if_neg h, if_pos h']
  · intro h h'
    simp only [goimportfmt.groupOfImport, if_neg h, h']
    simp
  · intro h
    simp only [cmdmain.groupOfImport, if_pos h]
  · intro h h'
    have hne : ¬ goimportfmt.containsChar p '.' = false := by simp [h]
    simp only [cmdmain.groupOfImport, if_neg hne, if_pos h']
  · intro h h'
    have hne : ¬ goimportfmt.containsChar p '.' = false := by simp [h]
    simp only [cmdmain.groupOfImport, if_neg hne, if_neg h']

/-- Claim C1 witness: at `p = "mymodule"`, `m = "my"` the prefix rule
fires and the library classifier yields group 2. -/
theorem C1_classification_witness :
    goimportfmt.groupOfImport ⟨"my"⟩ "mymodule" = 2 :=
  (C1_classification "mymodule" "my").1 ⟨by decide, by decide⟩

/-- The group loop of `WriteTo`, once past the first group, prefixes
every group with one `\n`; joined up this is the separator-join of the
group texts behind one leading `\n`. -/
theorem writeGroupsFrom_false_eq (gp : goimportfmt.GroupedImports) :
    ∀ l : List Int, l ≠ [] →
      goimportfmt.writeGroupsFrom gp false l =
        "\n" ++ goimportfmt.sepJoin "\n" (l.map (goimportfmt.groupText gp))
  | [], h => absurd rfl h
  | [g], _ => by
    simp [goimportfmt.writeGroupsFrom, goimportfmt.sepJoin]
  | g :: g' :: rest, _ => by
    rw [show goimportfmt.writeGroupsFrom gp false (g :: g' :: rest) =
          "\n" ++ goimportfmt.groupText gp g ++
            goimportfmt.writeGroupsFrom gp false (g' :: rest) from rfl,
        writeGroupsFrom_false_eq gp (g' :: rest) (by simp)]
    simp [goimportfmt.sepJoin, String.append_assoc]

/-- The whole group loop of `WriteTo` renders the separator-join of the
group texts. -/
theorem writeGroupsFrom_true_eq (gp : goimportfmt.GroupedImports) (l : List Int) :
    goimportfmt.writeGroupsFrom gp true l =
      goimportfmt.sepJoin "\n" (l.map (goimportfmt.groupText gp)) := by
  cases l with
  | nil => rfl
  | cons g gs =>
    cases gs with
    | nil => simp [goimportfmt.writeGroupsFrom, goimportfmt.sepJoin]
    | cons g' rest =>
      rw [show goimportfmt.writeGroupsFrom gp true (g :: g' :: rest) =
            "" ++ goimportfmt.groupText gp g ++
              goimportfmt.writeGroupsFrom gp false (g' :: rest) from rfl,
          writeGroupsFrom_false_eq gp (g' :: rest) (by simp)]
      simp [goimportfmt.sepJoin, String.append_assoc]

/-- Claim C3, amended: for every non-empty `GroupedImports` the
rendered replacement block is the opening marker, then the text of each
present group in ascending group-id order (the rendered ids are
exactly, and only, the present ids — absent ids are never rendered,
empty or otherwise), with consecutive groups separated by exactly one
blank line (each group text ends in `\n` and one extra `\n` stands
between groups), each import rendered as its doc lines `\t// <doc>`
followed by one line `\t[name ]"path"[ // comment]` — and the closing
marker directly after the last group: `GroupedImports.WriteTo` has no
documented-imports section and never emits a trailing blank line
before the closing marker. -/
theorem C3_block_rendering (gp : goimportfmt.GroupedImports) (h : gp ≠ []) :
    goimportfmt.GroupedImports.writeTo gp = goimportfmt.specBlockText gp ∧
    List.Sorted (fun a b : Int => a ≤ b)
      (List.insertionSort (fun a b : Int => a ≤ b) (goimportfmt.GroupedImports.keys gp)) ∧
    (List.insertionSort (fun a b : Int => a ≤ b)
      (goimportfmt.GroupedImports.keys gp)).Perm (goimportfmt.GroupedImports.keys gp) := by
  refine ⟨?_, List.sorted_insertionSort _ _, List.perm_insertionSort _ _⟩
  have hne : ¬(gp.isEmpty = true) := by simp [h]
  rw [goimportfmt.GroupedImports.writeTo, goimportfmt.specBlockText, if_neg hne,
    writeGroupsFrom_true_eq]

/-- Claim C3 witness: a two-group map, rendered. -/
theorem C3_block_rendering_witness :
    goimportfmt.GroupedImports.writeTo
        [(1, [⟨"", "pkg.example.com/x", [], ""⟩]), (0, [⟨"", "fmt", [], ""⟩])] =
      goimportfmt.specBlockText
        [(1, [⟨"", "pkg.example.com/x", [], ""⟩]), (0, [⟨"", "fmt", [], ""⟩])] :=
  (C3_block_rendering [(1, [⟨"", "pkg.example.com/x", [], ""⟩]), (0, [⟨"", "fmt", [], ""⟩])]
    (by decide)).1

/-- Claim C3 counterexample: with one group rendered (after the — in
`WriteTo` nonexistent — documented section) the claim requires a
trailing blank line before `)`, but the rendered block closes directly
after the group's last line. -/
theorem C3_counterexample :
    goimportfmt.GroupedImports.writeTo [(0, [⟨"", "fmt", [], ""⟩])] =
      "import (\n\t\"fmt\"\n)\n" ∧
    goimportfmt.GroupedImports.writeTo [(0, [⟨"", "fmt", [], ""⟩])] ≠
      "import (\n\t\"fmt\"\n\n)\n" := by
  exact ⟨by decide, by decide⟩

/-- `GroupedImports.add` commutes with mapping a function over every
stored import, provided the key is unchanged. -/
theorem add_map_comm (f : goimportfmt.Import → goimportfmt.Import) :
    ∀ (gp : goimportfmt.GroupedImports) (n : Int) (i : goimportfmt.Import),
      goimportfmt.GroupedImports.add (gp.map (fun p => (p.1, p.2.map f))) n (f i) =
        (goimportfmt.GroupedImports.add gp n i).map (fun p => (p.1, p.2.map f))
  | [], _, _ => rfl
  | (k, l) :: rest, n, i => by
    by_cases hk : k = n
    · simp [goimportfmt.GroupedImports.add, hk]
    · simp [goimportfmt.GroupedImports.add, hk, add_map_comm f rest n i]

/-- The bucketing fold of `defaultFormatFunc` commutes with a
path-preserving transformation of the imports. -/
theorem bucket_fold_map_comm (ctx : goimportfmt.Context)
    (f : goimportfmt.Import → goimportfmt.Import) (hf : ∀ i, (f i).Path = i.Path) :
    ∀ (is : List goimportfmt.Import) (gp : goimportfmt.GroupedImports),
      (is.map f).foldl
          (fun gp i => goimportfmt.GroupedImports.add gp (goimportfmt.groupOfImport ctx i.Path) i)
          (gp.map (fun p => (p.1, p.2.map f))) =
        (is.foldl
          (fun gp i => goimportfmt.GroupedImports.add gp (goimportfmt.groupOfImport ctx i.Path) i)
          gp).map (fun p => (p.1, p.2.map f))
  | [], _ => rfl
  | i :: rest, gp => by
    simp only [List.map_cons, List.foldl_cons, hf i, add_map_comm f gp]
    exact bucket_fold_map_comm ctx f hf rest _

/-- Claim C6: within every group produced by `defaultFormatFunc` the
imports are in non-decreasing byte-wise path order, and a
transformation that changes anything but the `Path` field commutes
with the whole grouping-and-sorting pipeline — the `Name`, `Docs` and
`Comment` fields never influence an import's position. -/
theorem C6_group_sorting (ctx : goimportfmt.Context) (is : List goimportfmt.Import) :
    (∀ p ∈ goimportfmt.defaultFormatFunc ctx is, List.Pairwise goimportfmt.pathLe p.2) ∧
    (∀ f : goimportfmt.Import → goimportfmt.Import, (∀ i, (f i).Path = i.Path) →
      goimportfmt.defaultFormatFunc ctx (is.map f) =
        (goimportfmt.defaultFormatFunc ctx is).map (fun p => (p.1, p.2.map f))) := by
  constructor
  · intro p hp
    rw [goimportfmt.defaultFormatFunc] at hp
    obtain ⟨q, _, rfl⟩ := List.mem_map.mp hp
    exact List.sorted_insertionSort goimportfmt.pathLe q.2
  · intro f hf
    rw [goimportfmt.defaultFormatFunc, goimportfmt.defaultFormatFunc]
    have hfold := bucket_fold_map_comm ctx f hf is []
    simp only [List.map_nil] at hfold
    rw [hfold, List.map_map, List.map_map]
    refine List.map_congr_left (fun p _ => ?_)
    simp only [Function.comp_apply]
    refine Prod.ext rfl ?_
    exact (List.map_insertionSort goimportfmt.pathLe goimportfmt.pathLe f p.2
      (fun a _ b _ => by
        rw [goimportfmt.pathLe, goimportfmt.pathLe, hf a, hf b])).symm

/-- Claim C6 witness: renaming every import leaves the grouped, sorted
result untouched except inside the records. -/
theorem C6_group_sorting_witness :
    goimportfmt.defaultFormatFunc ⟨"mymodule"⟩
        (([⟨"", "z.example/b", [], ""⟩, ⟨"", "a.example/c", [], ""⟩] :
            List goimportfmt.Import).map
          (fun i => { i with Name := "n" })) =
      (goimportfmt.defaultFormatFunc ⟨"mymodule"⟩
        [⟨"", "z.example/b", [], ""⟩, ⟨"", "a.example/c", [], ""⟩]).map
        (fun p => (p.1, p.2.map (fun i => { i with Name := "n" }))) :=
  (C6_group_sorting ⟨"mymodule"⟩ [⟨"", "z.example/b", [], ""⟩, ⟨"", "a.example/c", [], ""⟩]).2
    (fun i => { i with Name := "n" }) (fun _ => rfl)

/-- Claim C1 counterexample: the claim's own example path
`"mymodule/sub"` with module `"mymodule"` contains no `'.'`, so the
claim's first rule requires group 0 while its third rule (and its
example) require group 2.  The library classifier yields 2 (violating
the claim's no-dot rule) and the command classifier yields 0
(violating the claim's prefix rule and the claimed example). -/
theorem C1_counterexample :
    goimportfmt.containsChar "mymodule/sub" '.' = false ∧
    ("mymodule" ≠ "" ∧ goimportfmt.hasPrefixGo "mymodule/sub" "mymodule" = true) ∧
    goimportfmt.groupOfImport ⟨"mymodule"⟩ "mymodule/sub" ≠ 0 ∧
    cmdmain.groupOfImport "mymodule/sub" "mymodule" ≠ 2 := by
  exact ⟨by decide, ⟨by decide, by decide⟩, by decide, by decide⟩

/-- The spec loop of `loadImports` with no inherited docs maps
`mkImport` with empty inherited docs over the specs. -/
theorem loadSpecs_nil_docs (unquote : String → Option String) :
    ∀ l : List goimportfmt.ImportSpec,
      goimportfmt.loadSpecs unquote [] l = l.map (goimportfmt.mkImport unquote [])
  | [] => rfl
  | s :: rest => by
    simp [goimportfmt.loadSpecs, loadSpecs_nil_docs unquote rest]

/-- Claim C7: in a parenthesized import declaration carrying a leading
doc-comment block, the block's (trimmed) lines land in the docs of the
first spec's record only, followed by that spec's own doc lines; every
later spec's record starts from empty inherited docs, so its docs are
exactly its own doc-comment lines. -/
theorem C7_first_spec_docs (unquote : String → Option String) (cg : goimportfmt.CommentGroup)
    (line : Nat) (s0 : goimportfmt.ImportSpec) (rest : List goimportfmt.ImportSpec) :
    goimportfmt.loadDecl unquote ⟨some cg, line, s0 :: rest⟩ =
      goimportfmt.mkImport unquote (cg.texts.map goimportfmt.commentText) s0 ::
        rest.map (goimportfmt.mkImport unquote []) ∧
    (goimportfmt.mkImport unquote (cg.texts.map goimportfmt.commentText) s0).Docs =
      cg.texts.map goimportfmt.commentText ++ goimportfmt.groupTexts s0.doc ∧
    ∀ s : goimportfmt.ImportSpec,
      (goimportfmt.mkImport unquote [] s).Docs = goimportfmt.groupTexts s.doc := by
  refine ⟨?_, rfl, fun s => by simp [goimportfmt.mkImport]⟩
  rw [goimportfmt.loadDecl, goimportfmt.loadSpecs, loadSpecs_nil_docs unquote rest]
  rfl

/-- Claim C8: a parse failure aborts `Process` with an error before
anything reaches the destination (the embedded `Process` yields output
only in its `ok` branch); `loadImports` never fails, whatever
`strconv.Unquote` does; and a spec whose path literal fails to unquote
keeps the raw literal text as its `Path`. -/
theorem C8_error_handling :
    (∀ (unquote : String → Option String) (render : goimportfmt.File → List (List Char))
        (mod : String),
      goimportfmt.Process unquote render mod none = Except.error "failed to parse file") ∧
    (∀ (unquote : String → Option String) (f : goimportfmt.File),
      ∃ l, goimportfmt.loadImports unquote f = Except.ok l) ∧
    (∀ (unquote : String → Option String) (docs : List String) (s : goimportfmt.ImportSpec),
      unquote s.pathValue = none → (goimportfmt.mkImport unquote docs s).Path = s.pathValue) := by
  refine ⟨fun _ _ _ => rfl, fun unquote f => ⟨_, rfl⟩, fun unquote docs s h => ?_⟩
  simp [goimportfmt.mkImport, h]

/-- Claim C8 witness: an unquotable literal keeps its raw text. -/
theorem C8_error_handling_witness :
    (goimportfmt.mkImport (fun _ => none) [] ⟨none, "\"bad", none, none⟩).Path = "\"bad" :=
  C8_error_handling.2.2 (fun _ => none) [] ⟨none, "\"bad", none, none⟩ rfl

/-- A write call in the pass-through phase (`w.count >= w.lineInsert`,
`goimportfmt.go` lines 68-70) hands its bytes to the destination
unchanged, leaves the state untouched, and never re-checks anything. -/
theorem writeStep_passthrough (w : goimportfmt.ImportInsertWriter) (bs : List Char)
    (h : w.lineInsert ≤ w.count) :
    goimportfmt.writeStep w bs = (w, bs, bs.length) := by
  rw [goimportfmt.writeStep, if_pos h]

/-- A whole run of write calls in the pass-through phase forwards the
concatenation of its inputs. -/
theorem run_passthrough (w : goimportfmt.ImportInsertWriter) (h : w.lineInsert ≤ w.count) :
    ∀ ws : List (List Char), goimportfmt.runWrites w ws = (w, ws.flatten)
  | [] => by simp [goimportfmt.runWrites]
  | bs :: rest => by
    simp [goimportfmt.runWrites, writeStep_passthrough w bs h, run_passthrough w h rest]

/-- `countNL` distributes over append. -/
theorem countNL_append (a b : List Char) :
    goimportfmt.countNL (a ++ b) = goimportfmt.countNL a + goimportfmt.countNL b := by
  simp [goimportfmt.countNL]

/-- Unfolding `countNL` at a newline. -/
theorem countNL_cons_nl (rest : List Char) :
    goimportfmt.countNL ('\n' :: rest) = goimportfmt.countNL rest + 1 := by
  simp [goimportfmt.countNL]

/-- Unfolding `countNL` at a non-newline byte. -/
theorem countNL_cons_other (c : Char) (rest : List Char) (hc : c ≠ '\n') :
    goimportfmt.countNL (c :: rest) = goimportfmt.countNL rest := by
  simp [goimportfmt.countNL, List.count_cons, hc]

/-- Unfolding the scanning loop at a newline. -/
theorem scanIdx_cons_nl (L : Nat) (rest : List Char) (cnt : Nat) :
    goimportfmt.scanIdx L ('\n' :: rest) cnt =
      if L ≤ cnt + 2 then 1 else 1 + goimportfmt.scanIdx L rest (cnt + 1) := by
  simp [goimportfmt.scanIdx]

/-- Unfolding the scanning loop at a non-newline byte. -/
theorem scanIdx_cons_other (L : Nat) (c : Char) (rest : List Char) (cnt : Nat)
    (hc : c ≠ '\n') :
    goimportfmt.scanIdx L (c :: rest) cnt = 1 + goimportfmt.scanIdx L rest cnt := by
  simp [goimportfmt.scanIdx, hc]

/-- The scanning loop never runs past the buffer. -/
theorem scanIdx_le_length (L : Nat) :
    ∀ (xs : List Char) (cnt : Nat), goimportfmt.scanIdx L xs cnt ≤ xs.length
  | [], _ => by simp [goimportfmt.scanIdx]
  | c :: rest, cnt => by
    by_cases hc : c = '\n'
    · subst hc
      rw [scanIdx_cons_nl]
      by_cases hL : L ≤ cnt + 2
      · simp [hL]
      · have := scanIdx_le_length L rest (cnt + 1)
        rw [if_neg hL]
        simp only [List.length_cons]
        omega
    · have := scanIdx_le_length L rest cnt
      rw [scanIdx_cons_other L c rest cnt hc]
      simp only [List.length_cons]
      omega

/-- When the buffer already holds enough newlines for the loop to
break, appending further bytes does not move the break position. -/
theorem scanIdx_append (L : Nat) :
    ∀ (xs ys : List Char) (cnt : Nat), 1 ≤ goimportfmt.countNL xs →
      L ≤ cnt + goimportfmt.countNL xs + 1 →
      goimportfmt.scanIdx L (xs ++ ys) cnt = goimportfmt.scanIdx L xs cnt
  | [], _, _, h1, _ => by simp [goimportfmt.countNL] at h1
  | c :: rest, ys, cnt, h1, h2 => by
    by_cases hc : c = '\n'
    · subst hc
      rw [List.cons_append, scanIdx_cons_nl, scanIdx_cons_nl]
      by_cases hL : L ≤ cnt + 2
      · rw [if_pos hL, if_pos hL]
      · rw [if_neg hL, if_neg hL]
        rw [countNL_cons_nl] at h2
        have hr1 : 1 ≤ goimportfmt.countNL rest := by omega
        have hr2 : L ≤ (cnt + 1) + goimportfmt.countNL rest + 1 := by omega
        rw [scanIdx_append L rest ys (cnt + 1) hr1 hr2]
    · rw [countNL_cons_other c rest hc] at h1 h2
      rw [List.cons_append, scanIdx_cons_other L c _ cnt hc, scanIdx_cons_other L c rest cnt hc,
        scanIdx_append L rest ys cnt h1 h2]

/-- The buffer prefix kept before the injection point contains exactly
`L - cnt - 1` newlines: the loop breaks just past the newline that ends
line `L - 1`. -/
theorem countNL_take_scanIdx (L : Nat) :
    ∀ (xs : List Char) (cnt : Nat), cnt + 2 ≤ L →
      L ≤ cnt + goimportfmt.countNL xs + 1 →
      goimportfmt.countNL (xs.take (goimportfmt.scanIdx L xs cnt)) + cnt + 1 = L
  | [], cnt, hlo, hhi => by
    simp only [goimportfmt.countNL, List.count_nil] at hhi
    omega
  | c :: rest, cnt, hlo, hhi => by
    by_cases hc : c = '\n'
    · subst hc
      rw [countNL_cons_nl] at hhi
      rw [scanIdx_cons_nl]
      by_cases hL : L ≤ cnt + 2
      · have hEq : L = cnt + 2 := by omega
        rw [if_pos hL]
        simp only [List.take_succ_cons, List.take_zero]
        rw [countNL_cons_nl]
        simp only [goimportfmt.countNL, List.count_nil]
        omega
      · have ih := countNL_take_scanIdx L rest (cnt + 1) (by omega) (by omega)
        rw [if_neg hL]
        rw [show (1 + goimportfmt.scanIdx L rest (cnt + 1)) =
              goimportfmt.scanIdx L rest (cnt + 1) + 1 from by omega]
        simp only [List.take_succ_cons]
        rw [countNL_cons_nl]
        omega
    · rw [countNL_cons_other c rest hc] at hhi
      have ih := countNL_take_scanIdx L rest cnt hlo hhi
      rw [scanIdx_cons_other L c rest cnt hc]
      rw [show (1 + goimportfmt.scanIdx L rest cnt) =
            goimportfmt.scanIdx L rest cnt + 1 from by omega]
      simp only [List.take_succ_cons]
      rw [countNL_cons_other c _ hc]
      omega

/-- Main invariant of the splice writer: starting from a buffering
state whose buffer `acc` has fewer newlines than the target, a run of
writes whose bytes carry the newline count past the target emits the
buffered-plus-new bytes with the rendered block and one `'\n'` spliced
in at the scanned position, exactly once, and ends in a state at or
past the target (so pass-through from then on). -/
theorem run_inject (L : Nat) (imp : List Char) (hL : 1 ≤ L) :
    ∀ (ws : List (List Char)) (acc : List Char),
      goimportfmt.countNL acc < L →
      L ≤ goimportfmt.countNL (acc ++ ws.flatten) →
      (goimportfmt.runWrites ⟨L, goimportfmt.countNL acc, acc, imp⟩ ws).2 =
        goimportfmt.splicedOutput L imp (acc ++ ws.flatten) ∧
      L ≤ (goimportfmt.runWrites ⟨L, goimportfmt.countNL acc, acc, imp⟩ ws).1.count ∧
      (goimportfmt.runWrites ⟨L, goimportfmt.countNL acc, acc, imp⟩ ws).1.lineInsert = L
  | [], acc, hlt, hge => by
    rw [List.flatten_nil, List.append_nil] at hge
    omega
  | bs :: rest, acc, hlt, hge => by
    have hnotpass : ¬ L ≤ goimportfmt.countNL acc := by omega
    have hflat : (bs :: rest).flatten = bs ++ rest.flatten := List.flatten_cons ..
    by_cases hc : goimportfmt.countNL acc + goimportfmt.countNL bs < L
    · -- still collecting after this call
      have hstep : goimportfmt.writeStep ⟨L, goimportfmt.countNL acc, acc, imp⟩ bs =
          (⟨L, goimportfmt.countNL (acc ++ bs), acc ++ bs, imp⟩, [], bs.length) := by
        rw [goimportfmt.writeStep]
        simp only [if_neg hnotpass, if_pos hc, countNL_append]
      have hge' : L ≤ goimportfmt.countNL ((acc ++ bs) ++ rest.flatten) := by
        rw [List.append_assoc, ← hflat]
        exact hge
      have hlt' : goimportfmt.countNL (acc ++ bs) < L := by
        rw [countNL_append]; omega
      have ih := run_inject L imp hL rest (acc ++ bs) hlt' hge'
      rw [goimportfmt.runWrites]
      simp only [hstep, List.nil_append]
      refine ⟨?_, ih.2.1, ih.2.2⟩
      rw [ih.1, hflat, List.append_assoc]
    · -- the injection happens in this call
      have hgecall : L ≤ goimportfmt.countNL (acc ++ bs) := by
        rw [countNL_append]; omega
      have h1 : 1 ≤ goimportfmt.countNL (acc ++ bs) := le_trans hL hgecall
      have hstep : goimportfmt.writeStep ⟨L, goimportfmt.countNL acc, acc, imp⟩ bs =
          (⟨L, goimportfmt.countNL acc + goimportfmt.countNL bs, [], imp⟩,
           (acc ++ bs).take (goimportfmt.scanIdx L (acc ++ bs) 0) ++ imp ++
             '\n' :: (acc ++ bs).drop (goimportfmt.scanIdx L (acc ++ bs) 0),
           ((acc ++ bs).take (goimportfmt.scanIdx L (acc ++ bs) 0) ++ imp ++
             '\n' :: (acc ++ bs).drop (goimportfmt.scanIdx L (acc ++ bs) 0)).length) := by
        rw [goimportfmt.writeStep]
        simp only [if_neg hnotpass, if_neg hc]
      have hpass : L ≤ (⟨L, goimportfmt.countNL acc + goimportfmt.countNL bs, [], imp⟩ :
          goimportfmt.ImportInsertWriter).count := by
        simp only []
        omega
      have hrest := run_passthrough
        ⟨L, goimportfmt.countNL acc + goimportfmt.countNL bs, [], imp⟩ hpass rest
      rw [goimportfmt.runWrites]
      simp only [hstep, hrest]
      refine ⟨?_, hpass, by trivial⟩
      have hidx : goimportfmt.scanIdx L ((acc ++ bs) ++ rest.flatten) 0 =
          goimportfmt.scanIdx L (acc ++ bs) 0 :=
        scanIdx_append L (acc ++ bs) rest.flatten 0 h1 (by omega)
      have hlen := scanIdx_le_length L (acc ++ bs) 0
      rw [goimportfmt.splicedOutput, hflat, ← List.append_assoc, hidx,
        List.take_append_of_le_length hlen, List.drop_append_of_le_length hlen]
      simp [List.append_assoc]

/-- Claim C4: starting from a fresh splice writer targeting line
`L ≥ 1`, once the streamed newline count reaches `L` the destination
receives the whole stream with the rendered block text plus exactly
one trailing newline injected at the scanned position, exactly once —
the final state is at or past the target, every subsequent write
passes its bytes straight through without re-checking anything
(`writeStep` on that state returns the bytes unchanged and leaves the
state fixed, so the transition is one-shot and irreversible and a
second injection never occurs) — and (for `L ≥ 2`) the prefix kept
before the injection point contains exactly `L - 1` newlines, i.e. the
block lands at the start of the line `removeImports` recorded for the
first import declaration. -/
theorem C4_splice_writer (L : Nat) (imp : List Char) (ws : List (List Char))
    (hL : 1 ≤ L) (h : L ≤ goimportfmt.countNL ws.flatten) :
    (goimportfmt.runWrites ⟨L, 0, [], imp⟩ ws).2 =
      goimportfmt.splicedOutput L imp ws.flatten ∧
    (∀ bs, goimportfmt.writeStep (goimportfmt.runWrites ⟨L, 0, [], imp⟩ ws).1 bs =
      ((goimportfmt.runWrites ⟨L, 0, [], imp⟩ ws).1, bs, bs.length)) ∧
    (2 ≤ L →
      goimportfmt.countNL (ws.flatten.take (goimportfmt.scanIdx L ws.flatten 0)) + 1 = L) := by
  have h0 : goimportfmt.countNL ([] : List Char) = 0 := rfl
  have hrun := run_inject L imp hL ws [] (by omega) (by simpa using h)
  simp only [List.nil_append, h0] at hrun
  refine ⟨hrun.1, ?_, ?_⟩
  · intro bs
    exact writeStep_passthrough _ bs (by rw [hrun.2.2]; exact hrun.2.1)
  · intro h2
    have := countNL_take_scanIdx L ws.flatten 0 (by omega) (by omega)
    omega

/-- Claim C4 witness: a two-chunk stream crossing target line 2. -/
theorem C4_splice_writer_witness :
    (goimportfmt.runWrites ⟨2, 0, [], ['I']⟩ [['a', '\n'], ['b', '\n', 'c']]).2 =
      goimportfmt.splicedOutput 2 ['I'] (List.flatten [['a', '\n'], ['b', '\n', 'c']]) :=
  (C4_splice_writer 2 ['I'] [['a', '\n'], ['b', '\n', 'c']] (by decide) (by decide)).1

/-- Claim C10: a write call that arrives while the writer is still
short of the target and whose bytes do not reach it either hands
nothing to the destination — the input is only appended to the
internal buffer, the newline count grows by the chunk's newlines — and
returns the full input length (the error is nil: the buffering branch
cannot fail); the destination first receives bytes on the call whose
newlines make the count reach the target (that call's emission is
non-empty). -/
theorem C10_buffering (w : goimportfmt.ImportInsertWriter) (bs : List Char)
    (h : w.count < w.lineInsert) :
    (w.count + goimportfmt.countNL bs < w.lineInsert →
      goimportfmt.writeStep w bs =
        ({ w with count := w.count + goimportfmt.countNL bs, buf := w.buf ++ bs },
         [], bs.length)) ∧
    (w.lineInsert ≤ w.count + goimportfmt.countNL bs →
      (goimportfmt.writeStep w bs).2.1 ≠ []) := by
  have hnotpass : ¬ w.lineInsert ≤ w.count := by omega
  constructor
  · intro hlt
    rw [goimportfmt.writeStep, if_neg hnotpass, if_pos hlt]
  · intro hge
    rw [goimportfmt.writeStep, if_neg hnotpass, if_neg (by omega)]
    simp

/-- Claim C10 witness: one buffered call on a fresh writer targeting
line 3. -/
theorem C10_buffering_witness :
    goimportfmt.writeStep ⟨3, 0, [], ['I']⟩ ['a', '\n'] =
      (⟨3, 1, ['a', '\n'], ['I']⟩, [], 2) :=
  (C10_buffering ⟨3, 0, [], ['I']⟩ ['a', '\n'] (by decide)).1 (by decide)

/-- The first-import-line scan leaves its accumulator alone on a
declaration list without imports. -/
theorem foldl_lineStep_no_imports :
    ∀ (ds : List goimportfmt.Decl) (x : Nat),
      (∀ d ∈ ds, d.isImport = false) → ds.foldl goimportfmt.lineStep x = x
  | [], _, _ => rfl
  | d :: rest, x, h => by
    cases d with
    | imp g =>
      have := h _ (List.mem_cons_self _ _)
      simp [goimportfmt.Decl.isImport] at this
    | other k =>
      rw [List.foldl_cons]
      exact foldl_lineStep_no_imports rest x (fun d hd => h d (List.mem_cons_of_mem _ hd))

/-- The comment collection finds nothing on a declaration list without
imports. -/
theorem foldl_commentStep_no_imports :
    ∀ (ds : List goimportfmt.Decl) (acc : List goimportfmt.CommentGroup),
      (∀ d ∈ ds, d.isImport = false) → ds.foldl goimportfmt.commentStep acc = acc
  | [], _, _ => rfl
  | d :: rest, acc, h => by
    cases d with
    | imp g =>
      have := h _ (List.mem_cons_self _ _)
      simp [goimportfmt.Decl.isImport] at this
    | other k =>
      rw [List.foldl_cons]
      exact foldl_commentStep_no_imports rest acc (fun d hd => h d (List.mem_cons_of_mem _ hd))

/-- The extraction loop finds nothing on a declaration list without
imports. -/
theorem foldl_loadStep_no_imports (unquote : String → Option String) :
    ∀ (ds : List goimportfmt.Decl) (acc : List goimportfmt.Import),
      (∀ d ∈ ds, d.isImport = false) → ds.foldl (goimportfmt.loadStep unquote) acc = acc
  | [], _, _ => rfl
  | d :: rest, acc, h => by
    cases d with
    | imp g =>
      have := h _ (List.mem_cons_self _ _)
      simp [goimportfmt.Decl.isImport] at this
    | other k =>
      rw [List.foldl_cons]
      exact foldl_loadStep_no_imports unquote rest acc
        (fun d hd => h d (List.mem_cons_of_mem _ hd))

/-- Claim C9: on a file without import declarations, `removeImports`
reports line 0 and leaves the tree untouched, extraction finds
nothing, the renderer renders nothing for the resulting empty
`GroupedImports`, and `Process` returns exactly the renderer's output
of the unchanged file — the splice writer (target line 0) passes every
byte straight through and injects no block. -/
theorem C9_zero_imports (unquote : String → Option String)
    (render : goimportfmt.File → List (List Char)) (mod : String) (f : goimportfmt.File)
    (h : ∀ d ∈ f.decls, d.isImport = false) :
    goimportfmt.removeImports f = (0, f) ∧
    goimportfmt.loadImports unquote f = Except.ok [] ∧
    goimportfmt.GroupedImports.writeTo (goimportfmt.defaultFormatFunc ⟨mod⟩ []) = "" ∧
    goimportfmt.Process unquote render mod (some f) = Except.ok ((render f).flatten) := by
  have hdecls : f.decls.filter (fun d => !d.isImport) = f.decls :=
    List.filter_eq_self.mpr (fun d hd => by rw [h d hd]; rfl)
  have hrem : goimportfmt.removeImports f = (0, f) := by
    rw [goimportfmt.removeImports]
    rw [foldl_lineStep_no_imports f.decls 0 h, foldl_commentStep_no_imports f.decls [] h]
    rw [hdecls]
    have hcom : f.comments.filter
        (fun c => !((([] : List goimportfmt.CommentGroup)).any fun c' => c'.id == c.id)) =
        f.comments :=
      List.filter_eq_self.mpr (fun c _ => rfl)
    rw [hcom]
  have hload : goimportfmt.loadImports unquote f = Except.ok [] := by
    rw [goimportfmt.loadImports, foldl_loadStep_no_imports unquote f.decls [] h]
  refine ⟨hrem, hload, rfl, ?_⟩
  rw [goimportfmt.Process, hload]
  simp only [hrem]
  rw [run_passthrough _ (Nat.le_refl 0) (render f)]

/-- Claim C9 witness: a one-declaration file with no imports passes
through unchanged. -/
theorem C9_zero_imports_witness :
    goimportfmt.Process (fun _ => none) (fun _ => [['p', '\n']]) "m"
        (some ⟨[goimportfmt.Decl.other 0], [⟨0, ["// c"]⟩]⟩) =
      Except.ok (List.flatten [['p', '\n']]) :=
  (C9_zero_imports (fun _ => none) (fun _ => [['p', '\n']]) "m"
    ⟨[goimportfmt.Decl.other 0], [⟨0, ["// c"]⟩]⟩ (by decide)).2.2.2

/-- Everything stored by `addGroup` is either the inserted import or
was already stored. -/
theorem addGroup_mem :
    ∀ (m : cmdmain.Groups) (g : Int) (i : cmdmain.Import),
      ∀ p ∈ cmdmain.addGroup m g i, ∀ x ∈ p.2, x = i ∨ ∃ q ∈ m, x ∈ q.2
  | [], g, i, p, hp, x, hx => by
    simp [cmdmain.addGroup] at hp
    subst hp
    simp at hx
    exact Or.inl hx
  | (k, l) :: rest, g, i, p, hp, x, hx => by
    by_cases hk : k = g
    · simp only [cmdmain.addGroup, if_pos hk] at hp
      rcases List.mem_cons.mp hp with hp | hp
      · subst hp
        rcases List.mem_append.mp hx with hx | hx
        · exact Or.inr ⟨(k, l), List.mem_cons_self .., hx⟩
        · simp at hx
          exact Or.inl hx
      · exact Or.inr ⟨p, List.mem_cons_of_mem _ hp, hx⟩
    · simp only [cmdmain.addGroup, if_neg hk] at hp
      rcases List.mem_cons.mp hp with hp | hp
      · subst hp
        exact Or.inr ⟨(k, l), List.mem_cons_self .., hx⟩
      · rcases addGroup_mem rest g i p hp x hx with h | ⟨q, hq, hxq⟩
        · exact Or.inl h
        · exact Or.inr ⟨q, List.mem_cons_of_mem _ hq, hxq⟩

/-- Everything stored by the grouping fold of the sort task came from
the folded list or the initial map. -/
theorem groups_fold_mem (mod : String) :
    ∀ (l : List cmdmain.Import) (m : cmdmain.Groups),
      ∀ p ∈ l.foldl (fun m i => cmdmain.addGroup m (cmdmain.groupOfImport i.Path mod) i) m,
        ∀ x ∈ p.2, x ∈ l ∨ ∃ q ∈ m, x ∈ q.2
  | [], m, p, hp, x, hx => Or.inr ⟨p, hp, hx⟩
  | i :: rest, m, p, hp, x, hx => by
    rw [List.foldl_cons] at hp
    rcases groups_fold_mem mod rest _ p hp x hx with h | ⟨q, hq, hxq⟩
    · exact Or.inl (List.mem_cons_of_mem _ h)
    · rcases addGroup_mem m _ i q hq x hxq with h | ⟨q', hq', hxq'⟩
      · exact Or.inl (h ▸ List.mem_cons_self ..)
      · exact Or.inr ⟨q', hq', hxq'⟩

/-- Claim C2, amended: in the sort task of `createApp`, imports with a
non-empty `docs` are kept out of the classifier's buckets (every
member of every rendered block and of the groups map has empty docs),
the documented imports are exactly the documented inputs (as a
multiset), and the emitted block text renders them as one leading
section before every grouped block: the rendered text is the
documented section, then the group sections in ascending group-id
order each followed by a blank line, then the closing marker — but
the whole import list is sorted by path before the documented/plain
split, so the documented section is in ascending path order, not in
original relative order. -/
theorem C2_doc_imports (imports : List cmdmain.Import) (mod : String) :
    (∀ b ∈ cmdmain.blocksOf imports mod, ∀ x ∈ b, x.Docs = []) ∧
    (∀ p ∈ cmdmain.groupsOf imports mod, ∀ x ∈ p.2, x.Docs = []) ∧
    List.Pairwise cmdmain.pathLe (cmdmain.docImportsOf imports) ∧
    (cmdmain.docImportsOf imports).Perm (imports.filter (fun i => !i.Docs.isEmpty)) ∧
    cmdmain.renderGroupedPart imports mod =
      cmdmain.printImports (cmdmain.docImportsOf imports) ++ "\n" ++
      String.join ((cmdmain.blocksOf imports mod).map
        (fun b => cmdmain.printImports b ++ "\n")) ++
      ")\n" := by
  have hgroups : ∀ p ∈ cmdmain.groupsOf imports mod, ∀ x ∈ p.2, x.Docs = [] := by
    intro p hp x hx
    rw [cmdmain.groupsOf] at hp
    rcases groups_fold_mem mod _ [] p hp x hx with h | ⟨q, hq, _⟩
    · have := List.of_mem_filter h
      exact List.isEmpty_iff.mp this
    · simp at hq
  refine ⟨?_, hgroups, ?_, ?_, rfl⟩
  · intro b hb x hx
    rw [cmdmain.blocksOf] at hb
    obtain ⟨g, _, rfl⟩ := List.mem_map.mp hb
    rw [cmdmain.lookupGroup] at hx
    rcases hfind : (cmdmain.groupsOf imports mod).find? (fun p => p.1 == g) with _ | p
    · rw [hfind] at hx
      simp at hx
    · rw [hfind] at hx
      exact hgroups p (List.mem_of_find?_eq_some hfind) x hx
  · exact (List.sorted_insertionSort cmdmain.pathLe imports).filter _
  · exact (List.perm_insertionSort cmdmain.pathLe imports).filter _

/-- Claim C2 witness: two documented imports and one plain one — the
plain import lands in a rendered block and indeed has empty docs. -/
theorem C2_doc_imports_witness :
    (⟨"", "b", [], "", 3, 3⟩ : cmdmain.Import).Docs = [] :=
  (C2_doc_imports [⟨"", "z", ["// dz"], "", 1, 1⟩, ⟨"", "b", [], "", 3, 3⟩,
      ⟨"", "a", ["// da"], "", 2, 2⟩] "m").1
    [⟨"", "b", [], "", 3, 3⟩] (by decide) ⟨"", "b", [], "", 3, 3⟩ (by decide)

/-- Claim C2 counterexample: two documented imports given in the order
`"z"`, `"a"` are rendered in the documented section in path order
`"a"`, `"z"`, not in their original relative order. -/
theorem C2_counterexample :
    cmdmain.docImportsOf
        [⟨"", "z", ["// dz"], "", 1, 1⟩, ⟨"", "a", ["// da"], "", 2, 2⟩] =
      [⟨"", "a", ["// da"], "", 2, 2⟩, ⟨"", "z", ["// dz"], "", 1, 1⟩] ∧
    [(⟨"", "a", ["// da"], "", 2, 2⟩ : cmdmain.Import), ⟨"", "z", ["// dz"], "", 1, 1⟩] ≠
      [⟨"", "z", ["// dz"], "", 1, 1⟩, ⟨"", "a", ["// da"], "", 2, 2⟩] := by
  exact ⟨by decide, by decide⟩
